import Mathlib

/-! # vendor-update-monitor

A shallow embedding of `vendor-update-monitor.go`: a webhook handler that
receives repository push events, selects the changed paths that match one of
the configured regular expressions, posts an alert to a messaging webhook when
there is at least one, and answers with a JSON body.

What lies outside the program is a parameter of the embedding:

* the regular-expression library (`regexp.Compile`, `(*Regexp).MatchString`)
  is a value of `Regexp R`;
* the file system, the JSON decoder and the outbound HTTP client are the
  fields of `World`;
* Go `error` values are represented by their message, a `String`;
* a `panic` is the `Except.error` result of a function, and `Exit.panicked`
  for the handler.

Effects of the handler (lines printed, response header, bytes written to the
response, outbound POST calls) are recorded in order in a trace.
-/

namespace VendorUpdateMonitor

/-! ## Data model (lines 14-55) -/

/-- One revision of a push: `type Commit struct`. -/
structure Commit where
  ID : String
  Added : List String
  Removed : List String
  Modified : List String
deriving DecidableEq, Repr

/-- The anonymous struct of the field `Repository` of `GitEvent`. -/
structure Repository where
  Name : String
deriving DecidableEq, Repr

/-- A push event: `type GitEvent struct`. -/
structure GitEvent where
  Ref : String
  After : String
  Repository : Repository
  Commits : List Commit
  Compare : String
deriving DecidableEq, Repr

/-- The configuration: `type Config struct`. `Port` is a `json.Number`, which
is a string type. -/
structure Config where
  Patterns : List String
  Ref : String
  SlackWebhook : String
  Port : String
deriving DecidableEq, Repr

/-- The answer of an evaluated push: `type WebhookResponse struct`. -/
structure WebhookResponse where
  Files : List String
  ShouldAlert : Bool
deriving DecidableEq, Repr

/-- The text of a block: `type SlackText struct` (field `Type` is `Type_`). -/
structure SlackText where
  Type_ : String
  Text : String
deriving DecidableEq, Repr

/-- One block of a message: `type SlackBlock struct`. -/
structure SlackBlock where
  Type_ : String
  Text : SlackText
deriving DecidableEq, Repr

/-- A message: `type SlackBlocks struct`. -/
structure SlackBlocks where
  Blocks : List SlackBlock
deriving DecidableEq, Repr

/-! ## The outside world -/

/-- The part of Go's `regexp` package the program uses. `Compile p` is
`regexp.Compile(p)`: a compiled expression, or the error's message.
`MatchString r s` is `r.MatchString(s)`. -/
structure Regexp (R : Type) where
  Compile : String → Except String R
  MatchString : R → String → Bool

/-- What the handler obtains from outside the program during one request.
`ReadFile` is the result of `os.ReadFile(os.Args[1])`, `UnmarshalConfig` and
`UnmarshalEvent` are `json.Unmarshal` into a `Config` and into a `GitEvent`,
and `Post url contentType body` is the result of `http.Post`. -/
structure World where
  ReadFile : Except String String
  UnmarshalConfig : String → Except String Config
  UnmarshalEvent : String → Except String GitEvent
  Post : String → String → String → Except String Unit

/-- What the handler reads from `r *http.Request`: the value of
`r.Header.Get("X-GitHub-Event")` (empty when the header is absent) and the
result of `ioutil.ReadAll(r.Body)`. -/
structure Request where
  XGitHubEvent : String
  Body : Except String String

/-- An observable action of the handler. -/
inductive Effect where
  /-- A line printed with `fmt.Println` (without its newline). -/
  | println (line : String)
  /-- A call `w.Header().Set(key, value)`. -/
  | setHeader (key value : String)
  /-- A call `w.Write(data)`. -/
  | write (data : String)
  /-- A call `http.Post(url, contentType, body)`. -/
  | post (url contentType body : String)
deriving DecidableEq, Repr

/-- How the handler ends: it returns, or a `panic` leaves it. -/
inductive Exit where
  | returned
  | panicked (err : String)
deriving DecidableEq, Repr

/-- The run of the handler on one request: its effects in order, and how it
ended. -/
structure Outcome where
  trace : List Effect
  exit : Exit
deriving DecidableEq, Repr

/-- The bytes written to the response, in order. -/
def Outcome.responseBody (o : Outcome) : String :=
  String.join (o.trace.filterMap fun e =>
    match e with
    | .write data => some data
    | _ => none)

/-- The `w.Write` calls of a run. -/
def Outcome.writes (o : Outcome) : List String :=
  o.trace.filterMap fun e =>
    match e with
    | .write data => some data
    | _ => none

/-- The outbound notification calls of a run, as (url, content type, body). -/
def Outcome.posts (o : Outcome) : List (String × String × String) :=
  o.trace.filterMap fun e =>
    match e with
    | .post url contentType body => some (url, contentType, body)
    | _ => none

/-! ## `encoding/json` on the types the program marshals -/

/-- The table `hex` of `encoding/json`. -/
def hex (n : Nat) : Char :=
  "0123456789abcdef".data.getD n '0'

/-- How `encoding/json` writes one character of a string, with HTML escaping
on (the setting of `json.Marshal`): the quote and the backslash get a
backslash; backspace, form feed, newline, carriage return and tab their short
form; other control characters below U+0020 and `<`, `>`, `&` the form
`\u00XY`; U+2028 and U+2029 the form `\u202X`; everything else is copied.
Releases of Go before 1.22 write backspace and form feed as `\u0008` and
`\u000c`; no statement below depends on these two characters. -/
def marshalRune (c : Char) : String :=
  if c = '\\' ∨ c = '"' then String.mk ['\\', c]
  else if c = '\x08' then "\\b"
  else if c = '\x0c' then "\\f"
  else if c = '\n' then "\\n"
  else if c = '\r' then "\\r"
  else if c = '\t' then "\\t"
  else if c.toNat < 0x20 ∨ c = '<' ∨ c = '>' ∨ c = '&' then
    String.mk ['\\', 'u', '0', '0', hex (c.toNat / 16), hex (c.toNat % 16)]
  else if c.toNat = 0x2028 ∨ c.toNat = 0x2029 then
    String.mk ['\\', 'u', '2', '0', '2', hex (c.toNat % 16)]
  else String.mk [c]

/-- The JSON text of a Go `string`. -/
def marshalString (s : String) : String :=
  "\"" ++ String.join (s.data.map marshalRune) ++ "\""

/-- The JSON text of a non-nil `[]string`. -/
def marshalStrings (xs : List String) : String :=
  "[" ++ String.intercalate "," (xs.map marshalString) ++ "]"

/-- The JSON text of a `bool`. -/
def marshalBool (b : Bool) : String :=
  if b then "true" else "false"

/-- The result of `json.Marshal` on a `WebhookResponse` whose `Files` is not
nil: the members in declaration order under their `json` tags. -/
def WebhookResponse.marshal (r : WebhookResponse) : String :=
  "\x7b\"files\":" ++ marshalStrings r.Files ++ ",\"shouldAlert\":" ++
    marshalBool r.ShouldAlert ++ "\x7d"

/-- The result of `json.Marshal` on a `SlackText`. -/
def SlackText.marshal (t : SlackText) : String :=
  "\x7b\"type\":" ++ marshalString t.Type_ ++ ",\"text\":" ++ marshalString t.Text ++ "\x7d"

/-- The result of `json.Marshal` on a `SlackBlock`. -/
def SlackBlock.marshal (b : SlackBlock) : String :=
  "\x7b\"type\":" ++ marshalString b.Type_ ++ ",\"text\":" ++ b.Text.marshal ++ "\x7d"

/-- The result of `json.Marshal` on a `SlackBlocks` whose `Blocks` is not nil. -/
def SlackBlocks.marshal (m : SlackBlocks) : String :=
  "\x7b\"blocks\":[" ++ String.intercalate "," (m.Blocks.map SlackBlock.marshal) ++ "]\x7d"

/-! ## The program -/

/-- The function `getConfig` (lines 110-121): read the configuration file and decode it;
either step may fail. -/
def getConfig (w : World) : Except String Config :=
  match w.ReadFile with
  | .error fileErr => .error fileErr
  | .ok file =>
    match w.UnmarshalConfig file with
    | .error err => .error err
    | .ok config => .ok config

/-- The loop of `getPatterns` (lines 139-145) on the patterns still to
compile, with the matchers compiled so far: the first pattern that does not
compile makes the function panic with the compile error. -/
def getPatterns.loop {R : Type} (E : Regexp R) : List String → List R → Except String (List R)
  | [], patterns => .ok patterns
  | p :: rest, patterns =>
    match E.Compile p with
    | .error err => .error err
    | .ok r => getPatterns.loop E rest (patterns ++ [r])

/-- The function `getPatterns` (lines 136-147): one matcher per configured
pattern, in order, or a panic. -/
def getPatterns {R : Type} (E : Regexp R) (config : Config) : Except String (List R) :=
  getPatterns.loop E config.Patterns []

/-- The inner loop of `getMatchingFiles` (lines 152-157) for one file name:
the first pattern that matches appends the name and leaves the loop. -/
def getMatchingFiles.inner {R : Type} (E : Regexp R) (filename : String) :
    List R → List String → List String
  | [], acc => acc
  | pattern :: rest, acc =>
    if E.MatchString pattern filename then acc ++ [filename]
    else getMatchingFiles.inner E filename rest acc

/-- The function `getMatchingFiles` (lines 149-160): the outer loop over the
file names, starting from the empty slice. -/
def getMatchingFiles {R : Type} (E : Regexp R) (patterns : List R) (filenames : List String) :
    List String :=
  filenames.foldl (fun acc filename => getMatchingFiles.inner E filename patterns acc) []

/-- The loop of `removeDuplicates` (lines 166-171): `seen` is the map
`map[string]bool` (an absent key reads `false`), `result` the slice built so
far. -/
def removeDuplicates.loop : List String → (String → Bool) → List String → List String
  | [], _, result => result
  | str :: rest, seen, result =>
    if !seen str then
      removeDuplicates.loop rest (fun k => if k = str then true else seen k) (result ++ [str])
    else removeDuplicates.loop rest seen result

/-- The function `removeDuplicates` (lines 162-174): the loop from the empty
map and the empty slice. -/
def removeDuplicates (strs : List String) : List String :=
  removeDuplicates.loop strs (fun _ => false) []

/-- The slice `files` of `getViolatingFiles` after the loop over the commits
(lines 127-131). -/
def getViolatingFiles.collect {R : Type} (E : Regexp R) (patterns : List R)
    (commits : List Commit) : List String :=
  commits.foldl (fun files commit =>
    ((files ++ getMatchingFiles E patterns commit.Added)
      ++ getMatchingFiles E patterns commit.Modified)
      ++ getMatchingFiles E patterns commit.Removed) []

/-- The function `getViolatingFiles` (lines 123-134); it panics when
`getPatterns` does, before it looks at the event. -/
def getViolatingFiles {R : Type} (E : Regexp R) (config : Config) (pushEvent : GitEvent) :
    Except String (List String) :=
  match getPatterns E config with
  | .error err => .error err
  | .ok patterns => .ok (removeDuplicates (getViolatingFiles.collect E patterns pushEvent.Commits))

/-- The slice `blocks` built by `sendSlackMessage` (lines 177-197). -/
def sendSlackMessage.blocks (files : List String) (compare : String) : List SlackBlock :=
  ([⟨"header", ⟨"plain_text", "Someone is changing flagged files"⟩⟩]
    ++ [⟨"section", ⟨"mrkdwn", "```" ++ String.intercalate "\n" files ++ "```"⟩⟩])
    ++ [⟨"section", ⟨"mrkdwn", "<" ++ compare ++ "|Link to github>"⟩⟩]

/-- The function `sendSlackMessage` (lines 176-207): one POST of the marshalled blocks to
the configured webhook, and a printed line when the POST fails. -/
def sendSlackMessage (w : World) (config : Config) (files : List String) (compare : String) :
    List Effect :=
  let jsonStr := SlackBlocks.marshal ⟨sendSlackMessage.blocks files compare⟩
  match w.Post config.SlackWebhook "application/json" jsonStr with
  | .error _ => [.post config.SlackWebhook "application/json" jsonStr,
      .println "Could not send to slack"]
  | .ok _ => [.post config.SlackWebhook "application/json" jsonStr]

/-- The fall-through end of the handler (lines 94-95). -/
def webhookHandler.acknowledge : Outcome :=
  ⟨[.setHeader "Content-Type" "application/json", .write "\x7b\x7d"], .returned⟩

/-- The handler registered for `/webhook` in `main` (lines 58-96). -/
def webhookHandler {R : Type} (E : Regexp R) (w : World) (r : Request) : Outcome :=
  match getConfig w with
  | .error _ => ⟨[.println "Could not parse config"], .returned⟩
  | .ok config =>
    match r.Body with
    | .error err => ⟨[.println ("Error reading request body: " ++ err)], .returned⟩
    | .ok body =>
      if r.XGitHubEvent = "push" then
        match w.UnmarshalEvent body with
        | .error err => ⟨[.println ("Error unmarshaling push event: " ++ err)], .returned⟩
        | .ok pushEvent =>
          if pushEvent.Ref = config.Ref then
            match getViolatingFiles E config pushEvent with
            | .error err => ⟨[.println "New commit on branch"], .panicked err⟩
            | .ok files =>
              let shouldAlert := decide (files.length > 0)
              let alert := if shouldAlert then sendSlackMessage w config files pushEvent.Compare
                else []
              ⟨[.println "New commit on branch",
                  .setHeader "Content-Type" "application/json"]
                ++ alert ++ [.write (WebhookResponse.marshal ⟨files, shouldAlert⟩)], .returned⟩
          else webhookHandler.acknowledge
      else webhookHandler.acknowledge

/-! ## The changed paths of an event, as the specification reads them -/

/-- The paths of an event in reading order: the commits in order and, within
each commit, the added, then the modified, then the removed paths. -/
def changedPaths (pushEvent : GitEvent) : List String :=
  pushEvent.Commits.flatMap fun commit => commit.Added ++ commit.Modified ++ commit.Removed

/-- A path violates a configuration when one of the configured patterns
compiles to a matcher that matches it. -/
def Violates {R : Type} (E : Regexp R) (config : Config) (path : String) : Prop :=
  ∃ p ∈ config.Patterns, ∃ r, E.Compile p = .ok r ∧ E.MatchString r path = true

/-! ## A fragment of the regular-expression syntax

The examples below are evaluated with an instance of `Regexp` for the
patterns made of literal characters, `\` followed by a punctuation character,
the wildcard `.` and the postfix `*`, matched anywhere in the subject as
`MatchString` does. A pattern that uses another operator is outside the
fragment and this instance reports it as an error, which the Go library need
not do; every general statement is made for an arbitrary `Regexp R`. -/

namespace Fragment

/-- One character position of a pattern: a literal, or `.`. -/
inductive Atom where
  | lit (c : Char)
  | any
deriving DecidableEq, Repr

/-- An atom, possibly under `*`. -/
structure Item where
  atom : Atom
  star : Bool
deriving DecidableEq, Repr

/-- A lexical unit of a pattern. -/
inductive Tok where
  | atom (a : Atom)
  | star
deriving DecidableEq, Repr

/-- The characters with a meaning of their own in a pattern. -/
def special : List Char :=
  ['\\', '.', '+', '*', '?', '(', ')', '|', '[', ']', '\x7b', '\x7d', '^', '$']

/-- Reads the lexical units of a pattern. -/
def tokens : List Char → Except String (List Tok)
  | [] => .ok []
  | c :: rest =>
    if c = '\\' then
      match rest with
      | [] => .error "error parsing regexp: trailing backslash at end of expression: ``"
      | d :: rest2 =>
        if d.toNat < 128 ∧ ¬ d.isAlphanum then
          match tokens rest2 with
          | .error err => .error err
          | .ok ts => .ok (.atom (.lit d) :: ts)
        else .error "outside the fragment"
    else
      match tokens rest with
      | .error err => .error err
      | .ok ts =>
        if c = '.' then .ok (.atom .any :: ts)
        else if c = '*' then .ok (.star :: ts)
        else if c ∈ special then .error "outside the fragment"
        else .ok (.atom (.lit c) :: ts)

/-- Groups each atom with the `*` that follows it. A `*` with nothing to
repeat and a `*` right after a `*` are the errors of `regexp.Compile`. -/
def items : List Tok → Except String (List Item)
  | [] => .ok []
  | .star :: _ => .error "error parsing regexp: missing argument to repetition operator: `*`"
  | .atom a :: .star :: rest =>
    match rest with
    | .star :: _ => .error "error parsing regexp: invalid nested repetition operator: `**`"
    | _ =>
      match items rest with
      | .error err => .error err
      | .ok is => .ok (⟨a, true⟩ :: is)
  | .atom a :: rest =>
    match items rest with
    | .error err => .error err
    | .ok is => .ok (⟨a, false⟩ :: is)

/-- Whether an atom accepts a character; `.` accepts all but the newline. -/
def Atom.accepts : Atom → Char → Bool
  | .lit c, d => c == d
  | .any, d => d != '\n'

/-- Matches `a*` followed by the continuation `k` at the start of the input. -/
def matchStar (a : Atom) (k : List Char → Bool) : List Char → Bool
  | [] => k []
  | c :: cs => k (c :: cs) || (a.accepts c && matchStar a k cs)

/-- Whether the items match a prefix of the input. -/
def matchHere : List Item → List Char → Bool
  | [], _ => true
  | ⟨a, true⟩ :: rest, cs => matchStar a (matchHere rest) cs
  | ⟨_, false⟩ :: _, [] => false
  | ⟨a, false⟩ :: rest, c :: cs => a.accepts c && matchHere rest cs

/-- Whether the items match somewhere in the input. -/
def search (is : List Item) : List Char → Bool
  | [] => matchHere is []
  | c :: cs => matchHere is (c :: cs) || search is cs

/-- The instance of `Regexp` for the fragment. -/
def regexp : Regexp (List Item) where
  Compile p :=
    match tokens p.data with
    | .error err => .error err
    | .ok ts => items ts
  MatchString r s := search r s.data

end Fragment

/-! ## Example inputs -/

namespace Example

/-- A decoder that knows one document and rejects every other input with the
given message. -/
def decodeOnly {α : Type} (document : String) (value : α) (err : String) :
    String → Except String α :=
  fun s => if s = document then .ok value else .error err

/-- A configuration with the pattern `secrets/.*`. -/
def config : Config :=
  ⟨["secrets/.*"], "refs/heads/main", "https://hooks.example/services/T0", "8080"⟩

/-- The text of the configuration file for `config`. -/
def configFile : String :=
  "\x7b\"patterns\":[\"secrets/.*\"],\"ref\":\"refs/heads/main\"," ++
    "\"slack\":\"https://hooks.example/services/T0\",\"port\":8080\x7d"

/-- A configuration whose second pattern has nothing for `*` to repeat. -/
def badConfig : Config :=
  ⟨["secrets/.*", "*.pem"], "refs/heads/main", "https://hooks.example/services/T0", "8080"⟩

/-- The text of the configuration file for `badConfig`. -/
def badConfigFile : String :=
  "\x7b\"patterns\":[\"secrets/.*\",\"*.pem\"],\"ref\":\"refs/heads/main\"," ++
    "\"slack\":\"https://hooks.example/services/T0\",\"port\":8080\x7d"

/-- A configuration with the pattern `a\.txt`. -/
def dedupConfig : Config :=
  ⟨["a\\.txt"], "refs/heads/main", "https://hooks.example/services/T0", "8080"⟩

/-- A push to `refs/heads/main` that adds `secrets/key.pem`. -/
def pushEvent : GitEvent :=
  ⟨"refs/heads/main", "c0ffee", ⟨"vendor"⟩, [⟨"c0ffee", ["secrets/key.pem"], [], []⟩],
    "https://git.example/vendor/compare/a...b"⟩

/-- The same push to another branch. -/
def otherRefEvent : GitEvent :=
  ⟨"refs/heads/dev", "c0ffee", ⟨"vendor"⟩, [⟨"c0ffee", ["secrets/key.pem"], [], []⟩],
    "https://git.example/vendor/compare/a...b"⟩

/-- A push to `refs/heads/main` that touches no flagged path. -/
def quietEvent : GitEvent :=
  ⟨"refs/heads/main", "c0ffee", ⟨"vendor"⟩, [⟨"c0ffee", ["README.md"], [], ["main.go"]⟩],
    "https://git.example/vendor/compare/a...b"⟩

/-- A push that adds `a.txt` and `b.txt` and modifies `a.txt`. -/
def dedupEvent : GitEvent :=
  ⟨"refs/heads/main", "c0ffee", ⟨"vendor"⟩, [⟨"c0ffee", ["a.txt", "b.txt"], [], ["a.txt"]⟩],
    "https://git.example/vendor/compare/a...b"⟩

/-- The JSON text of a commit, as a push payload carries it. -/
def commitText (c : Commit) : String :=
  "\x7b\"id\":" ++ marshalString c.ID ++ ",\"added\":" ++ marshalStrings c.Added ++
    ",\"removed\":" ++ marshalStrings c.Removed ++ ",\"modified\":" ++
    marshalStrings c.Modified ++ "\x7d"

/-- The JSON text of a push event: a request body that decodes to it. -/
def payload (ev : GitEvent) : String :=
  "\x7b\"ref\":" ++ marshalString ev.Ref ++ ",\"after\":" ++ marshalString ev.After ++
    ",\"repository\":\x7b\"name\":" ++ marshalString ev.Repository.Name ++ "\x7d,\"commits\":[" ++
    String.intercalate "," (ev.Commits.map commitText) ++ "],\"compare\":" ++
    marshalString ev.Compare ++ "\x7d"

/-- A request body that is not JSON. -/
def garbage : String := "not json"

/-- A world in which the configuration file holds `file`, which decodes to
`cfg`, the request body `payload ev` decodes to `ev`, and the POST succeeds. -/
def world (file : String) (cfg : Config) (ev : GitEvent) : World where
  ReadFile := .ok file
  UnmarshalConfig := decodeOnly file cfg "unexpected end of JSON input"
  UnmarshalEvent := decodeOnly (payload ev) ev
    "invalid character 'o' in literal null (expecting 'u')"
  Post _ _ _ := .ok ()

/-- A world in which the configuration file cannot be read. -/
def noFileWorld : World where
  ReadFile := .error "open config.json: no such file or directory"
  UnmarshalConfig := decodeOnly configFile config "unexpected end of JSON input"
  UnmarshalEvent := decodeOnly (payload pushEvent) pushEvent
    "invalid character 'o' in literal null (expecting 'u')"
  Post _ _ _ := .ok ()

end Example

end VendorUpdateMonitor


namespace VendorUpdateMonitor

/-! ## Lemmas on the loops -/

theorem getMatchingFiles_inner_eq {R : Type} (E : Regexp R) (filename : String)
    (patterns : List R) (acc : List String) :
    getMatchingFiles.inner E filename patterns acc =
      if patterns.any (fun p => E.MatchString p filename) then acc ++ [filename] else acc := by
  induction patterns with
  | nil => simp [getMatchingFiles.inner]
  | cons p ps ih =>
    by_cases h : E.MatchString p filename = true
    · simp [getMatchingFiles.inner, h]
    · simp [getMatchingFiles.inner, h, ih]

theorem getMatchingFiles_foldl_eq {R : Type} (E : Regexp R) (patterns : List R)
    (filenames acc : List String) :
    filenames.foldl (fun acc filename => getMatchingFiles.inner E filename patterns acc) acc =
      acc ++ filenames.filter (fun f => patterns.any (fun p => E.MatchString p f)) := by
  induction filenames generalizing acc with
  | nil => simp
  | cons f fs ih =>
    rw [List.foldl_cons, ih, getMatchingFiles_inner_eq, List.filter_cons]
    split <;> simp

theorem getMatchingFiles_eq_filter {R : Type} (E : Regexp R) (patterns : List R)
    (filenames : List String) :
    getMatchingFiles E patterns filenames =
      filenames.filter (fun f => patterns.any (fun p => E.MatchString p f)) := by
  simp [getMatchingFiles, getMatchingFiles_foldl_eq]

theorem collect_foldl_eq {R : Type} (E : Regexp R) (patterns : List R)
    (commits : List Commit) (acc : List String) :
    commits.foldl (fun files commit =>
        ((files ++ getMatchingFiles E patterns commit.Added)
          ++ getMatchingFiles E patterns commit.Modified)
          ++ getMatchingFiles E patterns commit.Removed) acc =
      acc ++ (commits.flatMap fun commit =>
          commit.Added ++ commit.Modified ++ commit.Removed).filter
        (fun f => patterns.any (fun p => E.MatchString p f)) := by
  induction commits generalizing acc with
  | nil => simp
  | cons c cs ih =>
    rw [List.foldl_cons, ih]
    simp [getMatchingFiles_eq_filter, List.flatMap_cons, List.filter_append, List.append_assoc]

theorem collect_eq_filter {R : Type} (E : Regexp R) (patterns : List R) (pushEvent : GitEvent) :
    getViolatingFiles.collect E patterns pushEvent.Commits =
      (changedPaths pushEvent).filter (fun f => patterns.any (fun p => E.MatchString p f)) := by
  rw [getViolatingFiles.collect, collect_foldl_eq, changedPaths, List.nil_append]

theorem removeDuplicates_loop_snoc (strs : List String) (x : String) :
    ∀ (seen : String → Bool) (result : List String),
      (∀ k, seen k = true ↔ k ∈ result) →
      removeDuplicates.loop (strs ++ [x]) seen result =
        if x ∈ removeDuplicates.loop strs seen result then removeDuplicates.loop strs seen result
        else removeDuplicates.loop strs seen result ++ [x] := by
  induction strs with
  | nil =>
    intro seen result hinv
    by_cases hx : seen x = true
    · have hmem : x ∈ result := (hinv x).1 hx
      simp [removeDuplicates.loop, hx, hmem]
    · have hmem : x ∉ result := fun h => hx ((hinv x).2 h)
      simp [removeDuplicates.loop, hx, hmem]
  | cons str rest ih =>
    intro seen result hinv
    by_cases hs : seen str = true
    · simp only [List.cons_append, removeDuplicates.loop, hs, Bool.not_true, Bool.false_eq_true,
        if_false]
      exact ih seen result hinv
    · simp only [List.cons_append, removeDuplicates.loop, hs, Bool.not_false, if_true]
      apply ih
      intro k
      by_cases hk : k = str
      · simp [hk]
      · simp [hk, hinv k]

theorem removeDuplicates_nil : removeDuplicates [] = [] := rfl

theorem removeDuplicates_snoc (l : List String) (x : String) :
    removeDuplicates (l ++ [x]) =
      if x ∈ removeDuplicates l then removeDuplicates l else removeDuplicates l ++ [x] :=
  removeDuplicates_loop_snoc l x (fun _ => false) [] (by simp)

theorem mem_removeDuplicates (l : List String) (x : String) :
    x ∈ removeDuplicates l ↔ x ∈ l := by
  induction l using List.reverseRecOn with
  | nil => simp [removeDuplicates_nil]
  | append_singleton l a ih =>
    rw [removeDuplicates_snoc]
    by_cases ha : a ∈ removeDuplicates l
    · rw [if_pos ha, ih, List.mem_append, List.mem_singleton]
      constructor
      · exact Or.inl
      · rintro (h | h)
        · exact h
        · subst h; exact ih.1 ha
    · rw [if_neg ha, List.mem_append, List.mem_append, ih]

theorem nodup_removeDuplicates (l : List String) : (removeDuplicates l).Nodup := by
  induction l using List.reverseRecOn with
  | nil => simp [removeDuplicates_nil]
  | append_singleton l a ih =>
    rw [removeDuplicates_snoc]
    by_cases ha : a ∈ removeDuplicates l
    · rw [if_pos ha]; exact ih
    · rw [if_neg ha]
      exact List.Nodup.append ih (List.nodup_singleton a) (by simpa using ha)

theorem indexOf_removeDuplicates (l : List String) :
    ∀ x ∈ removeDuplicates l, ∀ y ∈ removeDuplicates l,
      ((removeDuplicates l).indexOf x < (removeDuplicates l).indexOf y ↔
        l.indexOf x < l.indexOf y) := by
  induction l using List.reverseRecOn with
  | nil => simp [removeDuplicates_nil]
  | append_singleton l a ih =>
    rw [removeDuplicates_snoc]
    by_cases ha : a ∈ removeDuplicates l
    · rw [if_pos ha]
      intro x hx y hy
      rw [List.indexOf_append_of_mem ((mem_removeDuplicates l x).1 hx),
        List.indexOf_append_of_mem ((mem_removeDuplicates l y).1 hy)]
      exact ih x hx y hy
    · rw [if_neg ha]
      have hal : a ∉ l := fun h => ha ((mem_removeDuplicates l a).2 h)
      have key : ∀ z, z ∈ removeDuplicates l ++ [a] →
          (z ∈ removeDuplicates l ∧ z ∈ l ∧
              (removeDuplicates l ++ [a]).indexOf z = (removeDuplicates l).indexOf z ∧
              (l ++ [a]).indexOf z = l.indexOf z ∧
              (removeDuplicates l).indexOf z < (removeDuplicates l).length ∧
              l.indexOf z < l.length)
          ∨ (z = a ∧ (removeDuplicates l ++ [a]).indexOf z = (removeDuplicates l).length ∧
              (l ++ [a]).indexOf z = l.length) := by
        intro z hz
        by_cases hzr : z ∈ removeDuplicates l
        · have hzl : z ∈ l := (mem_removeDuplicates l z).1 hzr
          exact Or.inl ⟨hzr, hzl, List.indexOf_append_of_mem hzr, List.indexOf_append_of_mem hzl,
            List.indexOf_lt_length.2 hzr, List.indexOf_lt_length.2 hzl⟩
        · have hza : z = a := by
            rcases List.mem_append.1 hz with h | h
            · exact absurd h hzr
            · exact List.mem_singleton.1 h
          subst hza
          refine Or.inr ⟨rfl, ?_, ?_⟩
          · rw [List.indexOf_append_of_not_mem hzr]; simp
          · rw [List.indexOf_append_of_not_mem hal]; simp
      intro x hx y hy
      rcases key x hx with ⟨hxr, _, e1, e2, b1, b2⟩ | ⟨_, e1, e2⟩ <;>
        rcases key y hy with ⟨hyr, _, f1, f2, c1, c2⟩ | ⟨_, f1, f2⟩
      · rw [e1, e2, f1, f2]; exact ih x hxr y hyr
      · rw [e1, e2, f1, f2]; exact ⟨fun _ => b2, fun _ => b1⟩
      · rw [e1, e2, f1, f2]
        exact ⟨fun h => absurd h (Nat.lt_asymm c1), fun h => absurd h (Nat.lt_asymm c2)⟩
      · rw [e1, e2, f1, f2]; simp

theorem indexOf_filter_lt_iff (P : String → Bool) (l : List String) (x y : String)
    (hx : P x = true) (hy : P y = true) :
    ((l.filter P).indexOf x < (l.filter P).indexOf y ↔ l.indexOf x < l.indexOf y) := by
  induction l with
  | nil => simp
  | cons a t ih =>
    by_cases hP : P a = true
    · rw [List.filter_cons_of_pos hP]
      by_cases hxa : a = x <;> by_cases hya : a = y
      · rw [List.indexOf_cons_eq _ hxa, List.indexOf_cons_eq _ hya, List.indexOf_cons_eq _ hxa,
          List.indexOf_cons_eq _ hya]
      · rw [List.indexOf_cons_eq _ hxa, List.indexOf_cons_ne _ hya, List.indexOf_cons_eq _ hxa,
          List.indexOf_cons_ne _ hya]
        simp
      · rw [List.indexOf_cons_ne _ hxa, List.indexOf_cons_eq _ hya, List.indexOf_cons_ne _ hxa,
          List.indexOf_cons_eq _ hya]
        simp
      · rw [List.indexOf_cons_ne _ hxa, List.indexOf_cons_ne _ hya, List.indexOf_cons_ne _ hxa,
          List.indexOf_cons_ne _ hya]
        simpa using ih
    · have hxa : a ≠ x := fun h => hP (h ▸ hx)
      have hya : a ≠ y := fun h => hP (h ▸ hy)
      rw [List.filter_cons_of_neg hP, List.indexOf_cons_ne _ hxa, List.indexOf_cons_ne _ hya]
      simpa using ih

theorem getPatterns_loop_ok {R : Type} (E : Regexp R) (ps : List String) (rs : List R)
    (h : List.Forall₂ (fun p r => E.Compile p = .ok r) ps rs) (acc : List R) :
    getPatterns.loop E ps acc = .ok (acc ++ rs) := by
  induction h generalizing acc with
  | nil => simp [getPatterns.loop]
  | cons hpr _ ih => simp [getPatterns.loop, hpr, ih]

theorem getPatterns_loop_error {R : Type} (E : Regexp R) (ps : List String)
    (h : ∃ p ∈ ps, ∃ err, E.Compile p = .error err) (acc : List R) :
    ∃ err, getPatterns.loop E ps acc = .error err ∧ ∃ p ∈ ps, E.Compile p = .error err := by
  induction ps generalizing acc with
  | nil => simp at h
  | cons p rest ih =>
    cases hc : E.Compile p with
    | error err => exact ⟨err, by simp [getPatterns.loop, hc], p, by simp, hc⟩
    | ok r =>
      have h2 : ∃ q ∈ rest, ∃ err, E.Compile q = .error err := by
        obtain ⟨q, hq, err, he⟩ := h
        rcases List.mem_cons.1 hq with hqp | hqr
        · subst hqp; rw [hc] at he; cases he
        · exact ⟨q, hqr, err, he⟩
      obtain ⟨err, h3, q, hq, he⟩ := ih h2 (acc ++ [r])
      exact ⟨err, by simp [getPatterns.loop, hc, h3], q, List.mem_cons_of_mem _ hq, he⟩

theorem exists_compiled {R : Type} (E : Regexp R) (ps : List String)
    (h : ∀ p ∈ ps, ∃ r, E.Compile p = .ok r) :
    ∃ rs, List.Forall₂ (fun p r => E.Compile p = .ok r) ps rs := by
  induction ps with
  | nil => exact ⟨[], List.Forall₂.nil⟩
  | cons p rest ih =>
    obtain ⟨r, hr⟩ := h p (by simp)
    obtain ⟨rs, hrs⟩ := ih (fun q hq => h q (List.mem_cons_of_mem _ hq))
    exact ⟨r :: rs, List.Forall₂.cons hr hrs⟩

theorem any_compiled_iff {R : Type} (E : Regexp R) (ps : List String) (rs : List R)
    (h : List.Forall₂ (fun p r => E.Compile p = .ok r) ps rs) (x : String) :
    rs.any (fun r => E.MatchString r x) = true ↔
      ∃ p ∈ ps, ∃ r, E.Compile p = .ok r ∧ E.MatchString r x = true := by
  induction h with
  | nil => simp
  | @cons p r ps rs hpr _ ih =>
    rw [List.any_cons, Bool.or_eq_true, ih]
    constructor
    · rintro (hm | ⟨q, hq, r2, hc, hm⟩)
      · exact ⟨p, by simp, r, hpr, hm⟩
      · exact ⟨q, List.mem_cons_of_mem _ hq, r2, hc, hm⟩
    · rintro ⟨q, hq, r2, hc, hm⟩
      rcases List.mem_cons.1 hq with hqp | hqr
      · subst hqp
        rw [hpr] at hc
        cases hc
        exact Or.inl hm
      · exact Or.inr ⟨q, hqr, r2, hc, hm⟩

theorem getViolatingFiles_of_compiled {R : Type} (E : Regexp R) (config : Config)
    (pushEvent : GitEvent) (rs : List R)
    (h : List.Forall₂ (fun p r => E.Compile p = .ok r) config.Patterns rs) :
    getViolatingFiles E config pushEvent =
      .ok (removeDuplicates ((changedPaths pushEvent).filter
        (fun f => rs.any (fun r => E.MatchString r f)))) := by
  have hp : getPatterns E config = .ok rs := by
    have := getPatterns_loop_ok E config.Patterns rs h []
    simpa [getPatterns] using this
  simp [getViolatingFiles, hp, collect_eq_filter]

theorem mem_changedPaths (pushEvent : GitEvent) (x : String) :
    x ∈ changedPaths pushEvent ↔
      ∃ c ∈ pushEvent.Commits, x ∈ c.Added ∨ x ∈ c.Modified ∨ x ∈ c.Removed := by
  simp [changedPaths, List.mem_flatMap]

theorem getViolatingFiles_ok {R : Type} (E : Regexp R) (config : Config) (pushEvent : GitEvent)
    (hvalid : ∀ p ∈ config.Patterns, ∃ r, E.Compile p = .ok r) :
    ∃ files, getViolatingFiles E config pushEvent = .ok files
      ∧ files.Nodup
      ∧ (∀ x, x ∈ files ↔ x ∈ changedPaths pushEvent ∧ Violates E config x)
      ∧ (∀ x ∈ files, ∀ y ∈ files,
          (files.indexOf x < files.indexOf y ↔
            (changedPaths pushEvent).indexOf x < (changedPaths pushEvent).indexOf y)) := by
  obtain ⟨rs, hrs⟩ := exists_compiled E config.Patterns hvalid
  have hmem : ∀ x, x ∈ removeDuplicates ((changedPaths pushEvent).filter
        (fun f => rs.any (fun r => E.MatchString r f))) ↔
      x ∈ changedPaths pushEvent ∧ Violates E config x := by
    intro x
    rw [mem_removeDuplicates, List.mem_filter, any_compiled_iff E config.Patterns rs hrs x]
    rfl
  refine ⟨_, getViolatingFiles_of_compiled E config pushEvent rs hrs,
    nodup_removeDuplicates _, hmem, ?_⟩
  intro x hx y hy
  rw [indexOf_removeDuplicates _ x hx y hy]
  have hx2 := ((mem_removeDuplicates _ x).1 hx)
  have hy2 := ((mem_removeDuplicates _ y).1 hy)
  exact indexOf_filter_lt_iff _ _ x y (List.mem_filter.1 hx2).2 (List.mem_filter.1 hy2).2

theorem webhookHandler_evaluated {R : Type} (E : Regexp R) (w : World) (r : Request)
    (config : Config) (body : String) (pushEvent : GitEvent) (files : List String)
    (hconfig : getConfig w = .ok config) (hbody : r.Body = .ok body)
    (hkind : r.XGitHubEvent = "push") (hparse : w.UnmarshalEvent body = .ok pushEvent)
    (href : pushEvent.Ref = config.Ref)
    (hfiles : getViolatingFiles E config pushEvent = .ok files) :
    webhookHandler E w r =
      ⟨[.println "New commit on branch", .setHeader "Content-Type" "application/json"]
        ++ (if files = [] then [] else sendSlackMessage w config files pushEvent.Compare)
        ++ [.write (WebhookResponse.marshal ⟨files, decide (files ≠ [])⟩)], .returned⟩ := by
  cases files with
  | nil => simp [webhookHandler, hconfig, hbody, hkind, hparse, href, hfiles]
  | cons f fs => simp [webhookHandler, hconfig, hbody, hkind, hparse, href, hfiles]

theorem sendSlackMessage_eq (w : World) (config : Config) (files : List String)
    (compare : String) :
    ∃ tail, sendSlackMessage w config files compare =
        .post config.SlackWebhook "application/json"
          (SlackBlocks.marshal ⟨sendSlackMessage.blocks files compare⟩) :: tail
      ∧ (tail = [] ∨ tail = [.println "Could not send to slack"]) := by
  cases hpost : w.Post config.SlackWebhook "application/json"
      (SlackBlocks.marshal ⟨sendSlackMessage.blocks files compare⟩) with
  | error e =>
    exact ⟨[.println "Could not send to slack"], by simp [sendSlackMessage, hpost], Or.inr rfl⟩
  | ok u => exact ⟨[], by simp [sendSlackMessage, hpost], Or.inl rfl⟩

theorem webhookHandler_acknowledge {R : Type} (E : Regexp R) (w : World) (r : Request)
    (config : Config) (body : String)
    (hconfig : getConfig w = .ok config) (hbody : r.Body = .ok body)
    (hfall : r.XGitHubEvent ≠ "push" ∨
      ∃ pushEvent, w.UnmarshalEvent body = .ok pushEvent ∧ pushEvent.Ref ≠ config.Ref) :
    webhookHandler E w r =
      ⟨[.setHeader "Content-Type" "application/json", .write "\x7b\x7d"], .returned⟩ := by
  rcases hfall with hkind | ⟨pushEvent, hparse, href⟩
  · simp [webhookHandler, hconfig, hbody, hkind, webhookHandler.acknowledge]
  · by_cases hkind : r.XGitHubEvent = "push"
    · simp [webhookHandler, hconfig, hbody, hkind, hparse, href, webhookHandler.acknowledge]
    · simp [webhookHandler, hconfig, hbody, hkind, webhookHandler.acknowledge]

theorem webhookHandler_evaluated_writes {R : Type} (E : Regexp R) (w : World) (r : Request)
    (config : Config) (body : String) (pushEvent : GitEvent) (files : List String)
    (hconfig : getConfig w = .ok config) (hbody : r.Body = .ok body)
    (hkind : r.XGitHubEvent = "push") (hparse : w.UnmarshalEvent body = .ok pushEvent)
    (href : pushEvent.Ref = config.Ref)
    (hfiles : getViolatingFiles E config pushEvent = .ok files) :
    (webhookHandler E w r).writes = [WebhookResponse.marshal ⟨files, decide (files ≠ [])⟩]
      ∧ (webhookHandler E w r).exit = .returned := by
  rw [webhookHandler_evaluated E w r config body pushEvent files hconfig hbody hkind hparse href
    hfiles]
  obtain ⟨tail, hs, ht⟩ := sendSlackMessage_eq w config files pushEvent.Compare
  by_cases hnil : files = []
  · simp [Outcome.writes, hnil]
  · rcases ht with ht | ht <;> simp [Outcome.writes, hnil, hs, ht]

theorem webhookHandler_evaluated_posts {R : Type} (E : Regexp R) (w : World) (r : Request)
    (config : Config) (body : String) (pushEvent : GitEvent) (files : List String)
    (hconfig : getConfig w = .ok config) (hbody : r.Body = .ok body)
    (hkind : r.XGitHubEvent = "push") (hparse : w.UnmarshalEvent body = .ok pushEvent)
    (href : pushEvent.Ref = config.Ref)
    (hfiles : getViolatingFiles E config pushEvent = .ok files) :
    (webhookHandler E w r).posts =
      if files = [] then []
      else [(config.SlackWebhook, "application/json",
        SlackBlocks.marshal ⟨sendSlackMessage.blocks files pushEvent.Compare⟩)] := by
  rw [webhookHandler_evaluated E w r config body pushEvent files hconfig hbody hkind hparse href
    hfiles]
  obtain ⟨tail, hs, ht⟩ := sendSlackMessage_eq w config files pushEvent.Compare
  by_cases hnil : files = []
  · simp [Outcome.posts, hnil]
  · rcases ht with ht | ht <;> simp [Outcome.posts, hnil, hs, ht]

theorem responseBody_eq_join (o : Outcome) : o.responseBody = String.join o.writes := rfl

theorem join_singleton (x : String) : String.join [x] = x := by
  simp [String.join]

/-! ## Claims -/

/-- C1. For every list of compiled patterns and every list of candidate
paths, `getMatchingFiles` is the candidate list filtered by "some pattern
matches this path": the matching candidates, as often as they occur and in
the input order. It is therefore a sublist of the candidates, and it is empty
when there is no pattern. -/
theorem getMatchingFiles_spec {R : Type} (E : Regexp R) (patterns : List R)
    (filenames : List String) :
    getMatchingFiles E patterns filenames
        = filenames.filter (fun f => patterns.any (fun p => E.MatchString p f))
      ∧ (∀ f, (getMatchingFiles E patterns filenames).count f
          = if (∃ p ∈ patterns, E.MatchString p f = true) then filenames.count f else 0)
      ∧ List.Sublist (getMatchingFiles E patterns filenames) filenames
      ∧ getMatchingFiles E [] filenames = [] := by
  refine ⟨getMatchingFiles_eq_filter E patterns filenames, ?_, ?_, ?_⟩
  · intro f
    rw [getMatchingFiles_eq_filter]
    induction filenames with
    | nil => simp
    | cons g gs ih =>
      by_cases hg : (∃ p ∈ patterns, E.MatchString p g = true)
      · by_cases hfg : g = f
        · subst hfg
          simp [List.filter_cons, hg] at ih ⊢
        · have hfg2 : (g == f) = false := by simpa using hfg
          simp [List.filter_cons, hg, List.count_cons, hfg2] at ih ⊢
          exact ih
      · by_cases hfg : g = f
        · subst hfg
          simp [List.filter_cons, hg] at ih ⊢
          exact ih
        · have hfg2 : (g == f) = false := by simpa using hfg
          simp [List.filter_cons, hg, List.count_cons, hfg2] at ih ⊢
          exact ih
  · rw [getMatchingFiles_eq_filter]
    exact List.filter_sublist _
  · simp [getMatchingFiles_eq_filter]

/-- C2. For every configuration whose patterns all compile and every push
event, `getViolatingFiles` returns a list without duplicates whose members are
exactly the paths that occur in the added, modified or removed list of some
commit and match a configured pattern, and two members stand in the order of
their first occurrences when the commits are read in order, each as added,
then modified, then removed. -/
theorem getViolatingFiles_spec {R : Type} (E : Regexp R) (config : Config)
    (pushEvent : GitEvent) (hvalid : ∀ p ∈ config.Patterns, ∃ r, E.Compile p = .ok r) :
    ∃ files, getViolatingFiles E config pushEvent = .ok files
      ∧ files.Nodup
      ∧ (∀ x, x ∈ files ↔
          (∃ c ∈ pushEvent.Commits, x ∈ c.Added ∨ x ∈ c.Modified ∨ x ∈ c.Removed)
            ∧ ∃ p ∈ config.Patterns, ∃ r, E.Compile p = .ok r ∧ E.MatchString r x = true)
      ∧ (∀ x ∈ files, ∀ y ∈ files,
          (files.indexOf x < files.indexOf y ↔
            (changedPaths pushEvent).indexOf x < (changedPaths pushEvent).indexOf y)) := by
  obtain ⟨files, hf, hnd, hmem, hord⟩ := getViolatingFiles_ok E config pushEvent hvalid
  refine ⟨files, hf, hnd, ?_, hord⟩
  intro x
  rw [hmem x, mem_changedPaths]
  rfl

/-- The example of C2: with added `a.txt`, `b.txt`, modified `a.txt` and the
pattern `a\.txt`, the pattern compiles and the result is `a.txt`, once. -/
theorem getViolatingFiles_spec_witness :
    (∀ p ∈ Example.dedupConfig.Patterns, ∃ r, Fragment.regexp.Compile p = .ok r)
      ∧ ∃ files, getViolatingFiles Fragment.regexp Example.dedupConfig Example.dedupEvent
            = .ok files
          ∧ files = ["a.txt"] ∧ files.Nodup := by
  have hvalid : ∀ p ∈ Example.dedupConfig.Patterns,
      ∃ r, Fragment.regexp.Compile p = .ok r := by
    intro p hp
    have hp2 : p = "a\\.txt" := by simpa [Example.dedupConfig] using hp
    subst hp2
    exact ⟨_, rfl⟩
  obtain ⟨files, hf, hnd, _, _⟩ :=
    getViolatingFiles_spec Fragment.regexp Example.dedupConfig Example.dedupEvent hvalid
  have heval : getViolatingFiles Fragment.regexp Example.dedupConfig Example.dedupEvent
      = .ok ["a.txt"] := rfl
  have hfiles : files = ["a.txt"] := by
    rw [heval] at hf
    exact (Except.ok.inj hf).symm
  exact ⟨hvalid, files, hf, hfiles, hnd⟩

/-- C8. When some configured pattern does not compile, `getPatterns` panics
with the compile error of a configured pattern and `getViolatingFiles` panics
with it for every push event, so no result is computed from the other
patterns. When every pattern compiles, `getPatterns` returns one matcher per
pattern in the configured order. -/
theorem getPatterns_fail_fast {R : Type} (E : Regexp R) (config : Config) :
    ((∃ p ∈ config.Patterns, ∃ err, E.Compile p = .error err) →
        ∃ err, getPatterns E config = .error err
          ∧ (∃ p ∈ config.Patterns, E.Compile p = .error err)
          ∧ ∀ pushEvent, getViolatingFiles E config pushEvent = .error err)
      ∧ ((∀ p ∈ config.Patterns, ∃ r, E.Compile p = .ok r) →
        ∃ rs, getPatterns E config = .ok rs
          ∧ List.Forall₂ (fun p r => E.Compile p = .ok r) config.Patterns rs) := by
  constructor
  · intro hbad
    obtain ⟨err, herr, hp⟩ := getPatterns_loop_error E config.Patterns hbad []
    have hg : getPatterns E config = .error err := herr
    exact ⟨err, hg, hp, fun pushEvent => by simp [getViolatingFiles, hg]⟩
  · intro hvalid
    obtain ⟨rs, hrs⟩ := exists_compiled E config.Patterns hvalid
    have := getPatterns_loop_ok E config.Patterns rs hrs []
    exact ⟨rs, by simpa [getPatterns] using this, hrs⟩

/-- The examples of C8: the configuration with the patterns `secrets/.*` and
`*.pem` makes both functions panic, also on an event without commits; the
configuration with the pattern `secrets/.*` alone yields one matcher. -/
theorem getPatterns_fail_fast_witness :
    (∃ p ∈ Example.badConfig.Patterns, ∃ err, Fragment.regexp.Compile p = .error err)
      ∧ (∃ err, getPatterns Fragment.regexp Example.badConfig = .error err
          ∧ getViolatingFiles Fragment.regexp Example.badConfig
              ⟨"refs/heads/main", "", ⟨""⟩, [], ""⟩ = .error err)
      ∧ (∀ p ∈ Example.config.Patterns, ∃ r, Fragment.regexp.Compile p = .ok r)
      ∧ (∃ rs, getPatterns Fragment.regexp Example.config = .ok rs ∧ rs.length = 1) := by
  have hbad : ∃ p ∈ Example.badConfig.Patterns, ∃ err,
      Fragment.regexp.Compile p = .error err :=
    ⟨"*.pem", by simp [Example.badConfig], _, rfl⟩
  have hvalid : ∀ p ∈ Example.config.Patterns, ∃ r, Fragment.regexp.Compile p = .ok r := by
    intro p hp
    have hp2 : p = "secrets/.*" := by simpa [Example.config] using hp
    subst hp2
    exact ⟨_, rfl⟩
  obtain ⟨err, hg, _, hv⟩ := (getPatterns_fail_fast Fragment.regexp Example.badConfig).1 hbad
  obtain ⟨rs, hrs, hall⟩ := (getPatterns_fail_fast Fragment.regexp Example.config).2 hvalid
  refine ⟨hbad, ⟨err, hg, hv _⟩, hvalid, rs, hrs, ?_⟩
  have hlen := hall.length_eq
  simpa [Example.config] using hlen.symm

/-- C9. For every list of paths and every comparison link, the message of
`sendSlackMessage` has exactly three blocks: a `header` block with the
`plain_text` announcement, a `section` block whose `mrkdwn` text is the paths
joined by a newline between triple backticks, and a `section` block whose
`mrkdwn` text is `<LINK|Link to github>`. The call posts the JSON text of
these blocks once, and the posted text is the same for every configuration
and every world. -/
theorem sendSlackMessage_message (files : List String) (compare : String) :
    sendSlackMessage.blocks files compare =
        [⟨"header", ⟨"plain_text", "Someone is changing flagged files"⟩⟩,
          ⟨"section", ⟨"mrkdwn", "```" ++ String.intercalate "\n" files ++ "```"⟩⟩,
          ⟨"section", ⟨"mrkdwn", "<" ++ compare ++ "|Link to github>"⟩⟩]
      ∧ (∀ (w : World) (config : Config),
          Outcome.posts ⟨sendSlackMessage w config files compare, .returned⟩ =
            [(config.SlackWebhook, "application/json",
              SlackBlocks.marshal ⟨sendSlackMessage.blocks files compare⟩)])
      ∧ (∀ (w w2 : World) (config config2 : Config),
          (Outcome.posts ⟨sendSlackMessage w config files compare, .returned⟩).map (·.2.2) =
            (Outcome.posts ⟨sendSlackMessage w2 config2 files compare, .returned⟩).map (·.2.2)) := by
  have hposts : ∀ (w : World) (config : Config),
      Outcome.posts ⟨sendSlackMessage w config files compare, .returned⟩ =
        [(config.SlackWebhook, "application/json",
          SlackBlocks.marshal ⟨sendSlackMessage.blocks files compare⟩)] := by
    intro w config
    obtain ⟨tail, hs, ht⟩ := sendSlackMessage_eq w config files compare
    rcases ht with ht | ht <;> simp [Outcome.posts, hs, ht]
  refine ⟨rfl, hposts, ?_⟩
  intro w w2 config config2
  rw [hposts w config, hposts w2 config2]
  rfl

/-- C3. For every request whose configuration loads, whose event kind is
`push`, whose body parses as a push event with the configured ref, and whose
configured patterns all compile, the handler returns after one write, and the
response body is the JSON object with the member `files`, the list of
`getViolatingFiles`, followed by the member `shouldAlert`, which tells whether
that list is non-empty. -/
theorem webhookHandler_response {R : Type} (E : Regexp R) (w : World) (r : Request)
    (config : Config) (body : String) (pushEvent : GitEvent)
    (hconfig : getConfig w = .ok config) (hbody : r.Body = .ok body)
    (hkind : r.XGitHubEvent = "push") (hparse : w.UnmarshalEvent body = .ok pushEvent)
    (href : pushEvent.Ref = config.Ref)
    (hvalid : ∀ p ∈ config.Patterns, ∃ c, E.Compile p = .ok c) :
    ∃ files, getViolatingFiles E config pushEvent = .ok files
      ∧ (webhookHandler E w r).exit = .returned
      ∧ (webhookHandler E w r).responseBody =
          "\x7b\"files\":" ++ marshalStrings files ++ ",\"shouldAlert\":" ++
            (if files = [] then "false" else "true") ++ "\x7d" := by
  obtain ⟨files, hf, _⟩ := getViolatingFiles_ok E config pushEvent hvalid
  obtain ⟨hw, hexit⟩ := webhookHandler_evaluated_writes E w r config body pushEvent files
    hconfig hbody hkind hparse href hf
  refine ⟨files, hf, hexit, ?_⟩
  rw [responseBody_eq_join, hw, join_singleton]
  by_cases hnil : files = [] <;> simp [WebhookResponse.marshal, marshalBool, hnil]

/-- The example of C3: a push to the configured ref that adds
`secrets/key.pem`, with the pattern `secrets/.*`, is answered with
`{"files":["secrets/key.pem"],"shouldAlert":true}`. -/
theorem webhookHandler_response_witness :
    getConfig (Example.world Example.configFile Example.config Example.pushEvent)
        = .ok Example.config
      ∧ (∀ p ∈ Example.config.Patterns, ∃ c, Fragment.regexp.Compile p = .ok c)
      ∧ (∃ files, getViolatingFiles Fragment.regexp Example.config Example.pushEvent = .ok files
          ∧ files = ["secrets/key.pem"])
      ∧ (webhookHandler Fragment.regexp
            (Example.world Example.configFile Example.config Example.pushEvent)
            ⟨"push", .ok (Example.payload Example.pushEvent)⟩).responseBody
          = "\x7b\"files\":[\"secrets/key.pem\"],\"shouldAlert\":true\x7d" := by
  have hconfig : getConfig (Example.world Example.configFile Example.config Example.pushEvent)
      = .ok Example.config := rfl
  have hvalid : ∀ p ∈ Example.config.Patterns, ∃ c, Fragment.regexp.Compile p = .ok c := by
    intro p hp
    have hp2 : p = "secrets/.*" := by simpa [Example.config] using hp
    subst hp2
    exact ⟨_, rfl⟩
  obtain ⟨files, hf, _, hb⟩ := webhookHandler_response Fragment.regexp
    (Example.world Example.configFile Example.config Example.pushEvent)
    ⟨"push", .ok (Example.payload Example.pushEvent)⟩ Example.config
    (Example.payload Example.pushEvent) Example.pushEvent hconfig rfl rfl
    (by simp [Example.world, Example.decodeOnly]) rfl hvalid
  have heval : getViolatingFiles Fragment.regexp Example.config Example.pushEvent
      = .ok ["secrets/key.pem"] := rfl
  have hfiles : files = ["secrets/key.pem"] := by
    rw [heval] at hf
    exact (Except.ok.inj hf).symm
  refine ⟨hconfig, hvalid, ⟨files, hf, hfiles⟩, ?_⟩
  rw [hb, hfiles]
  decide

/-- C4. For every evaluated push (push kind, well-formed payload, configured
ref, valid patterns): when no changed path matches a configured pattern, the
handler makes no outbound call and answers `shouldAlert` false with an empty
list; otherwise it makes exactly one outbound call, to the configured webhook
with content type `application/json`, and answers `shouldAlert` true. The
body of that call is the JSON text of three blocks: the header, the section
whose text is the violating paths (the list of `getViolatingFiles`, without
duplicates) joined by newlines between triple backticks, and the section whose
text is `<LINK|Link to github>` with the comparison link of the event. -/
theorem webhookHandler_alert {R : Type} (E : Regexp R) (w : World) (r : Request)
    (config : Config) (body : String) (pushEvent : GitEvent)
    (hconfig : getConfig w = .ok config) (hbody : r.Body = .ok body)
    (hkind : r.XGitHubEvent = "push") (hparse : w.UnmarshalEvent body = .ok pushEvent)
    (href : pushEvent.Ref = config.Ref)
    (hvalid : ∀ p ∈ config.Patterns, ∃ c, E.Compile p = .ok c) :
    ∃ files, getViolatingFiles E config pushEvent = .ok files
      ∧ files.Nodup
      ∧ (∀ x, x ∈ files ↔ x ∈ changedPaths pushEvent ∧ Violates E config x)
      ∧ ((∀ x ∈ changedPaths pushEvent, ¬ Violates E config x) →
          (webhookHandler E w r).posts = []
            ∧ (webhookHandler E w r).writes = [WebhookResponse.marshal ⟨[], false⟩])
      ∧ ((∃ x ∈ changedPaths pushEvent, Violates E config x) →
          (webhookHandler E w r).posts =
              [(config.SlackWebhook, "application/json",
                SlackBlocks.marshal ⟨[
                  ⟨"header", ⟨"plain_text", "Someone is changing flagged files"⟩⟩,
                  ⟨"section", ⟨"mrkdwn", "```" ++ String.intercalate "\n" files ++ "```"⟩⟩,
                  ⟨"section", ⟨"mrkdwn", "<" ++ pushEvent.Compare ++ "|Link to github>"⟩⟩]⟩)]
            ∧ (webhookHandler E w r).posts.map (fun call => call.2.2) =
              ["\x7b\"blocks\":[" ++
                ("\x7b\"type\":\"header\",\"text\":\x7b\"type\":\"plain_text\",\"text\":" ++
                    "\"Someone is changing flagged files\"\x7d\x7d"
                  ++ "," ++
                  ("\x7b\"type\":\"section\",\"text\":\x7b\"type\":\"mrkdwn\",\"text\":" ++
                    marshalString ("```" ++ String.intercalate "\n" files ++ "```") ++ "\x7d\x7d")
                  ++ "," ++
                  ("\x7b\"type\":\"section\",\"text\":\x7b\"type\":\"mrkdwn\",\"text\":" ++
                    marshalString ("<" ++ pushEvent.Compare ++ "|Link to github>") ++ "\x7d\x7d"))
                ++ "]\x7d"]
            ∧ (webhookHandler E w r).writes = [WebhookResponse.marshal ⟨files, true⟩]) := by
  obtain ⟨files, hf, hnd, hmem, _⟩ := getViolatingFiles_ok E config pushEvent hvalid
  obtain ⟨hw, _⟩ := webhookHandler_evaluated_writes E w r config body pushEvent files
    hconfig hbody hkind hparse href hf
  have hp := webhookHandler_evaluated_posts E w r config body pushEvent files
    hconfig hbody hkind hparse href hf
  refine ⟨files, hf, hnd, hmem, ?_, ?_⟩
  · intro hnone
    have hnil : files = [] := by
      apply List.eq_nil_iff_forall_not_mem.2
      intro x hx
      exact hnone x ((hmem x).1 hx).1 ((hmem x).1 hx).2
    rw [hp, hw]
    simp [hnil]
  · rintro ⟨x, hx, hv⟩
    have hne : files ≠ [] := List.ne_nil_of_mem ((hmem x).2 ⟨hx, hv⟩)
    have hheader : marshalString "header" = "\"header\"" := by decide
    have hsection : marshalString "section" = "\"section\"" := by decide
    have hplain : marshalString "plain_text" = "\"plain_text\"" := by decide
    have hmrkdwn : marshalString "mrkdwn" = "\"mrkdwn\"" := by decide
    have htitle : marshalString "Someone is changing flagged files"
        = "\"Someone is changing flagged files\"" := by decide
    rw [hp, hw, if_neg hne]
    refine ⟨rfl, ?_, by simp [hne]⟩
    simp only [List.map_cons, List.map_nil, sendSlackMessage.blocks, List.cons_append,
      List.nil_append, SlackBlocks.marshal, SlackBlock.marshal, SlackText.marshal,
      hheader, hsection, hplain, hmrkdwn, htitle, String.intercalate, String.intercalate.go]
    generalize marshalString ("```" ++ String.intercalate "\n" files ++ "```") = A
    generalize marshalString ("<" ++ pushEvent.Compare ++ "|Link to github>") = B
    congr 1
    apply String.ext
    simp only [String.data_append, List.append_assoc]
    rfl

/-- The examples of C4: the push that adds `secrets/key.pem` causes exactly
one outbound call, to the configured webhook, whose body is the message with
the header, the path `secrets/key.pem` between triple backticks and the link
to the comparison, and the answer carries `shouldAlert` true; the push that
touches `README.md` and `main.go` causes none, and the answer carries
`shouldAlert` false. -/
theorem webhookHandler_alert_witness :
    getConfig (Example.world Example.configFile Example.config Example.pushEvent)
        = .ok Example.config
      ∧ (∀ p ∈ Example.config.Patterns, ∃ c, Fragment.regexp.Compile p = .ok c)
      ∧ (∃ x ∈ changedPaths Example.pushEvent, Violates Fragment.regexp Example.config x)
      ∧ (webhookHandler Fragment.regexp
            (Example.world Example.configFile Example.config Example.pushEvent)
            ⟨"push", .ok (Example.payload Example.pushEvent)⟩).posts
          = [("https://hooks.example/services/T0", "application/json",
              "\x7b\"blocks\":[\x7b\"type\":\"header\",\"text\":\x7b\"type\":\"plain_text\"," ++
              "\"text\":\"Someone is changing flagged files\"\x7d\x7d," ++
              "\x7b\"type\":\"section\",\"text\":\x7b\"type\":\"mrkdwn\"," ++
              "\"text\":\"```secrets/key.pem```\"\x7d\x7d," ++
              "\x7b\"type\":\"section\",\"text\":\x7b\"type\":\"mrkdwn\"," ++
              "\"text\":\"\\u003chttps://git.example/vendor/compare/a...b|Link to github\\u003e\"" ++
              "\x7d\x7d]\x7d")]
      ∧ (webhookHandler Fragment.regexp
            (Example.world Example.configFile Example.config Example.pushEvent)
            ⟨"push", .ok (Example.payload Example.pushEvent)⟩).writes
          = ["\x7b\"files\":[\"secrets/key.pem\"],\"shouldAlert\":true\x7d"]
      ∧ (∀ x ∈ changedPaths Example.quietEvent, ¬ Violates Fragment.regexp Example.config x)
      ∧ (webhookHandler Fragment.regexp
            (Example.world Example.configFile Example.config Example.quietEvent)
            ⟨"push", .ok (Example.payload Example.quietEvent)⟩).posts = []
      ∧ (webhookHandler Fragment.regexp
            (Example.world Example.configFile Example.config Example.quietEvent)
            ⟨"push", .ok (Example.payload Example.quietEvent)⟩).writes
          = ["\x7b\"files\":[],\"shouldAlert\":false\x7d"] := by
  have hconfig : getConfig (Example.world Example.configFile Example.config Example.pushEvent)
      = .ok Example.config := rfl
  have hvalid : ∀ p ∈ Example.config.Patterns, ∃ c, Fragment.regexp.Compile p = .ok c := by
    intro p hp
    have hp2 : p = "secrets/.*" := by simpa [Example.config] using hp
    subst hp2
    exact ⟨_, rfl⟩
  have hviol : ∃ x ∈ changedPaths Example.pushEvent,
      Violates Fragment.regexp Example.config x :=
    ⟨"secrets/key.pem", by decide, "secrets/.*", by decide, _, rfl, rfl⟩
  have hquiet : ∀ x ∈ changedPaths Example.quietEvent,
      ¬ Violates Fragment.regexp Example.config x := by
    intro x hx
    rintro ⟨p, hp, c, hc, hm⟩
    have hp2 : p = "secrets/.*" := by simpa [Example.config] using hp
    subst hp2
    have hc2 : Fragment.regexp.Compile "secrets/.*" = .ok
        [⟨.lit 's', false⟩, ⟨.lit 'e', false⟩, ⟨.lit 'c', false⟩, ⟨.lit 'r', false⟩,
          ⟨.lit 'e', false⟩, ⟨.lit 't', false⟩, ⟨.lit 's', false⟩, ⟨.lit '/', false⟩,
          ⟨.any, true⟩] := rfl
    rw [hc2] at hc
    have hc3 := Except.ok.inj hc
    subst hc3
    have hx2 : x = "README.md" ∨ x = "main.go" := by
      simpa [changedPaths, Example.quietEvent] using hx
    rcases hx2 with hx3 | hx3 <;> subst hx3 <;> exact absurd hm (by decide)
  obtain ⟨files, hf, _, _, _, halert⟩ := webhookHandler_alert Fragment.regexp
    (Example.world Example.configFile Example.config Example.pushEvent)
    ⟨"push", .ok (Example.payload Example.pushEvent)⟩ Example.config
    (Example.payload Example.pushEvent) Example.pushEvent hconfig rfl rfl
    (by simp [Example.world, Example.decodeOnly]) rfl hvalid
  obtain ⟨hposts, _, hwrites⟩ := halert hviol
  obtain ⟨_, _, _, _, hnone, _⟩ := webhookHandler_alert Fragment.regexp
    (Example.world Example.configFile Example.config Example.quietEvent)
    ⟨"push", .ok (Example.payload Example.quietEvent)⟩ Example.config
    (Example.payload Example.quietEvent) Example.quietEvent rfl rfl rfl
    (by simp [Example.world, Example.decodeOnly]) rfl hvalid
  obtain ⟨hposts2, hwrites2⟩ := hnone hquiet
  have heval : getViolatingFiles Fragment.regexp Example.config Example.pushEvent
      = .ok ["secrets/key.pem"] := rfl
  have hfiles : files = ["secrets/key.pem"] := by
    rw [heval] at hf
    exact (Except.ok.inj hf).symm
  refine ⟨hconfig, hvalid, hviol, ?_, ?_, hquiet, hposts2, ?_⟩
  · rw [hposts, hfiles]
    set_option maxRecDepth 100000 in decide
  · rw [hwrites, hfiles]; decide
  · rw [hwrites2]; decide

/-- C5. For every push-kind request whose configuration loads and whose
payload parses, when the ref of the event differs from the configured ref the
handler sets the content type, writes exactly `{}` and makes no outbound call.
The run is the same whatever the commits of the event and the configured
patterns are. -/
theorem webhookHandler_other_ref {R : Type} (E : Regexp R) (w : World) (r : Request)
    (config : Config) (body : String) (pushEvent : GitEvent)
    (hconfig : getConfig w = .ok config) (hbody : r.Body = .ok body)
    (hkind : r.XGitHubEvent = "push") (hparse : w.UnmarshalEvent body = .ok pushEvent)
    (href : pushEvent.Ref ≠ config.Ref) :
    webhookHandler E w r =
        ⟨[.setHeader "Content-Type" "application/json", .write "\x7b\x7d"], .returned⟩
      ∧ (webhookHandler E w r).responseBody = "\x7b\x7d"
      ∧ (webhookHandler E w r).posts = []
      ∧ (∀ (w2 : World) (commits : List Commit) (patterns : List String),
          getConfig w2 = .ok { config with Patterns := patterns } →
          w2.UnmarshalEvent body = .ok { pushEvent with Commits := commits } →
          webhookHandler E w2 r = webhookHandler E w r) := by
  have h1 : webhookHandler E w r =
      ⟨[.setHeader "Content-Type" "application/json", .write "\x7b\x7d"], .returned⟩ := by
    simp [webhookHandler, hconfig, hbody, hkind, hparse, href, webhookHandler.acknowledge]
  refine ⟨h1, ?_, ?_, ?_⟩
  · rw [h1]; decide
  · rw [h1]; decide
  · intro w2 commits patterns hconfig2 hparse2
    rw [h1]
    exact webhookHandler_acknowledge E w2 r _ body hconfig2 hbody
      (Or.inr ⟨_, hparse2, href⟩)

/-- The example of C5: the push that adds `secrets/key.pem` to another branch
is answered with `{}` and causes no outbound call. -/
theorem webhookHandler_other_ref_witness :
    getConfig (Example.world Example.configFile Example.config Example.otherRefEvent)
        = .ok Example.config
      ∧ Example.otherRefEvent.Ref ≠ Example.config.Ref
      ∧ (webhookHandler Fragment.regexp
            (Example.world Example.configFile Example.config Example.otherRefEvent)
            ⟨"push", .ok (Example.payload Example.otherRefEvent)⟩).responseBody = "\x7b\x7d"
      ∧ (webhookHandler Fragment.regexp
            (Example.world Example.configFile Example.config Example.otherRefEvent)
            ⟨"push", .ok (Example.payload Example.otherRefEvent)⟩).posts = [] := by
  have hconfig : getConfig
      (Example.world Example.configFile Example.config Example.otherRefEvent)
      = .ok Example.config := rfl
  have href : Example.otherRefEvent.Ref ≠ Example.config.Ref := by decide
  obtain ⟨_, hb, hp, _⟩ := webhookHandler_other_ref Fragment.regexp
    (Example.world Example.configFile Example.config Example.otherRefEvent)
    ⟨"push", .ok (Example.payload Example.otherRefEvent)⟩ Example.config
    (Example.payload Example.otherRefEvent) Example.otherRefEvent hconfig rfl rfl
    (by simp [Example.world, Example.decodeOnly]) href
  exact ⟨hconfig, href, hb, hp⟩

/-- C6, as stated, fails: with a configuration that loads and the event kind
`ping`, a request whose body cannot be read gets no response body at all. -/
theorem webhookHandler_other_kind_unread_body :
    getConfig (Example.world Example.configFile Example.config Example.pushEvent)
        = .ok Example.config
      ∧ ("ping" : String) ≠ "push"
      ∧ (webhookHandler Fragment.regexp
            (Example.world Example.configFile Example.config Example.pushEvent)
            ⟨"ping", .error "unexpected EOF"⟩).writes = []
      ∧ (webhookHandler Fragment.regexp
            (Example.world Example.configFile Example.config Example.pushEvent)
            ⟨"ping", .error "unexpected EOF"⟩).responseBody ≠ "\x7b\x7d" :=
  ⟨rfl, by decide, rfl, by decide⟩

/-- C6, amended. For every request whose configuration loads, whose body is
read and whose event kind is anything other than `push` (the empty value of a
missing header included), the handler sets the content type, writes exactly
`{}` and makes no outbound call; the body is not parsed: the run is the same
for every decoder of push events. -/
theorem webhookHandler_other_kind {R : Type} (E : Regexp R) (w : World) (r : Request)
    (config : Config) (body : String)
    (hconfig : getConfig w = .ok config) (hbody : r.Body = .ok body)
    (hkind : r.XGitHubEvent ≠ "push") :
    webhookHandler E w r =
        ⟨[.setHeader "Content-Type" "application/json", .write "\x7b\x7d"], .returned⟩
      ∧ (webhookHandler E w r).responseBody = "\x7b\x7d"
      ∧ (webhookHandler E w r).posts = []
      ∧ (∀ decode : String → Except String GitEvent,
          webhookHandler E { w with UnmarshalEvent := decode } r = webhookHandler E w r) := by
  have h1 := webhookHandler_acknowledge E w r config body hconfig hbody (Or.inl hkind)
  refine ⟨h1, ?_, ?_, ?_⟩
  · rw [h1]; decide
  · rw [h1]; decide
  · intro decode
    rw [h1]
    exact webhookHandler_acknowledge E _ r config body hconfig hbody (Or.inl hkind)

/-- The example of C6, amended: a `ping` request, and a request without the
header, with a readable body are answered with `{}`. -/
theorem webhookHandler_other_kind_witness :
    getConfig (Example.world Example.configFile Example.config Example.pushEvent)
        = .ok Example.config
      ∧ ("ping" : String) ≠ "push"
      ∧ (webhookHandler Fragment.regexp
            (Example.world Example.configFile Example.config Example.pushEvent)
            ⟨"ping", .ok Example.garbage⟩).responseBody = "\x7b\x7d"
      ∧ (webhookHandler Fragment.regexp
            (Example.world Example.configFile Example.config Example.pushEvent)
            ⟨"", .ok (Example.payload Example.pushEvent)⟩).responseBody = "\x7b\x7d" :=
  ⟨rfl, by decide,
    (webhookHandler_other_kind Fragment.regexp
      (Example.world Example.configFile Example.config Example.pushEvent)
      ⟨"ping", .ok Example.garbage⟩ Example.config Example.garbage rfl rfl (by decide)).2.1,
    (webhookHandler_other_kind Fragment.regexp
      (Example.world Example.configFile Example.config Example.pushEvent)
      ⟨"", .ok (Example.payload Example.pushEvent)⟩ Example.config
      (Example.payload Example.pushEvent) rfl rfl (by decide)).2.1⟩

/-- C7, as stated, fails: when the configuration file cannot be read, when
the request body cannot be read and when the push payload is malformed, the
handler returns without writing a response body; when a configured pattern
does not compile, a push to the configured ref makes it panic before it writes
one. -/
theorem webhookHandler_no_body :
    (webhookHandler Fragment.regexp Example.noFileWorld
          ⟨"push", .ok (Example.payload Example.pushEvent)⟩
        = ⟨[.println "Could not parse config"], .returned⟩
      ∧ (webhookHandler Fragment.regexp Example.noFileWorld
          ⟨"push", .ok (Example.payload Example.pushEvent)⟩).writes = [])
      ∧ (webhookHandler Fragment.regexp
            (Example.world Example.configFile Example.config Example.pushEvent)
            ⟨"push", .error "unexpected EOF"⟩).writes = []
      ∧ (webhookHandler Fragment.regexp
            (Example.world Example.configFile Example.config Example.pushEvent)
            ⟨"push", .ok Example.garbage⟩).writes = []
      ∧ ((webhookHandler Fragment.regexp
            (Example.world Example.badConfigFile Example.badConfig Example.pushEvent)
            ⟨"push", .ok (Example.payload Example.pushEvent)⟩).writes = []
        ∧ (webhookHandler Fragment.regexp
            (Example.world Example.badConfigFile Example.badConfig Example.pushEvent)
            ⟨"push", .ok (Example.payload Example.pushEvent)⟩).exit
          = .panicked "error parsing regexp: missing argument to repetition operator: `*`") := by
  refine ⟨⟨rfl, rfl⟩, rfl, ?_, ?_⟩
  · have hparse : (Example.world Example.configFile Example.config
        Example.pushEvent).UnmarshalEvent Example.garbage
        = .error "invalid character 'o' in literal null (expecting 'u')" := by
      have hne : Example.garbage ≠ Example.payload Example.pushEvent := by decide
      simp [Example.world, Example.decodeOnly, hne]
    have hconfig : getConfig (Example.world Example.configFile Example.config
        Example.pushEvent) = .ok Example.config := rfl
    simp [webhookHandler, hconfig, hparse, Outcome.writes]
  · have hparse : (Example.world Example.badConfigFile Example.badConfig
        Example.pushEvent).UnmarshalEvent (Example.payload Example.pushEvent)
        = .ok Example.pushEvent := by
      simp [Example.world, Example.decodeOnly]
    have hconfig : getConfig (Example.world Example.badConfigFile Example.badConfig
        Example.pushEvent) = .ok Example.badConfig := rfl
    have hfiles : getViolatingFiles Fragment.regexp Example.badConfig Example.pushEvent
        = .error "error parsing regexp: missing argument to repetition operator: `*`" := rfl
    have href : Example.pushEvent.Ref = Example.badConfig.Ref := rfl
    simp [webhookHandler, hconfig, hparse, hfiles, href, Outcome.writes]

/-- C7, amended. For every inbound request for which the configuration loads,
the body is read and, when the event kind is `push`, the payload parses and,
when its ref is the configured one, every configured pattern compiles, the
handler returns after exactly one write, and what it writes is either the
evaluated result `{"files":[...],"shouldAlert":bool}` or exactly `{}`. -/
theorem webhookHandler_body_shape {R : Type} (E : Regexp R) (w : World) (r : Request)
    (config : Config) (body : String)
    (hconfig : getConfig w = .ok config) (hbody : r.Body = .ok body)
    (hpush : r.XGitHubEvent = "push" →
      ∃ pushEvent, w.UnmarshalEvent body = .ok pushEvent
        ∧ (pushEvent.Ref = config.Ref → ∀ p ∈ config.Patterns, ∃ c, E.Compile p = .ok c)) :
    (webhookHandler E w r).exit = .returned
      ∧ ((webhookHandler E w r).writes = ["\x7b\x7d"]
        ∨ ∃ (files : List String) (shouldAlert : Bool),
            (webhookHandler E w r).writes =
              ["\x7b\"files\":" ++ marshalStrings files ++ ",\"shouldAlert\":" ++
                (if shouldAlert then "true" else "false") ++ "\x7d"]) := by
  by_cases hkind : r.XGitHubEvent = "push"
  · obtain ⟨pushEvent, hparse, hpat⟩ := hpush hkind
    by_cases href : pushEvent.Ref = config.Ref
    · obtain ⟨files, hf, _⟩ := getViolatingFiles_ok E config pushEvent (hpat href)
      obtain ⟨hw, hexit⟩ := webhookHandler_evaluated_writes E w r config body pushEvent files
        hconfig hbody hkind hparse href hf
      refine ⟨hexit, Or.inr ⟨files, decide (files ≠ []), ?_⟩⟩
      rw [hw]
      simp [WebhookResponse.marshal, marshalBool]
    · rw [webhookHandler_acknowledge E w r config body hconfig hbody
        (Or.inr ⟨pushEvent, hparse, href⟩)]
      exact ⟨rfl, Or.inl rfl⟩
  · rw [webhookHandler_acknowledge E w r config body hconfig hbody (Or.inl hkind)]
    exact ⟨rfl, Or.inl rfl⟩

/-- The example of C7, amended: the push that adds `secrets/key.pem` gets a
body in one write. -/
theorem webhookHandler_body_shape_witness :
    getConfig (Example.world Example.configFile Example.config Example.pushEvent)
        = .ok Example.config
      ∧ (webhookHandler Fragment.regexp
            (Example.world Example.configFile Example.config Example.pushEvent)
            ⟨"push", .ok (Example.payload Example.pushEvent)⟩).exit = .returned
      ∧ (webhookHandler Fragment.regexp
            (Example.world Example.configFile Example.config Example.pushEvent)
            ⟨"push", .ok (Example.payload Example.pushEvent)⟩).writes.length = 1 := by
  have hconfig : getConfig (Example.world Example.configFile Example.config Example.pushEvent)
      = .ok Example.config := rfl
  have hvalid : ∀ p ∈ Example.config.Patterns, ∃ c, Fragment.regexp.Compile p = .ok c := by
    intro p hp
    have hp2 : p = "secrets/.*" := by simpa [Example.config] using hp
    subst hp2
    exact ⟨_, rfl⟩
  obtain ⟨hexit, hw⟩ := webhookHandler_body_shape Fragment.regexp
    (Example.world Example.configFile Example.config Example.pushEvent)
    ⟨"push", .ok (Example.payload Example.pushEvent)⟩ Example.config
    (Example.payload Example.pushEvent) hconfig rfl
    (fun _ => ⟨Example.pushEvent, by simp [Example.world, Example.decodeOnly],
      fun _ => hvalid⟩)
  refine ⟨hconfig, hexit, ?_⟩
  rcases hw with hw | ⟨files, shouldAlert, hw⟩ <;> rw [hw] <;> rfl

/-- C10. For every push-kind request whose body does not parse as a push
event, the handler prints one line and returns: it writes nothing, so the
response is empty, and it makes no outbound call. No pattern is compiled or
matched: the run is the same for every regular-expression engine, whatever the
configured patterns are, so an invalid pattern cannot make it panic. -/
theorem webhookHandler_malformed {R : Type} (E : Regexp R) (w : World) (r : Request)
    (body : String) (err : String) (hbody : r.Body = .ok body)
    (hkind : r.XGitHubEvent = "push") (hparse : w.UnmarshalEvent body = .error err) :
    ((webhookHandler E w r).trace = [.println ("Error unmarshaling push event: " ++ err)]
        ∨ (webhookHandler E w r).trace = [.println "Could not parse config"])
      ∧ (webhookHandler E w r).exit = .returned
      ∧ (webhookHandler E w r).posts = []
      ∧ (webhookHandler E w r).writes = []
      ∧ (webhookHandler E w r).responseBody = ""
      ∧ (∀ (R2 : Type) (E2 : Regexp R2), webhookHandler E2 w r = webhookHandler E w r) := by
  cases hconfig : getConfig w with
  | error e =>
    have h1 : ∀ (R2 : Type) (E2 : Regexp R2), webhookHandler E2 w r =
        ⟨[.println "Could not parse config"], .returned⟩ := by
      intro R2 E2
      simp [webhookHandler, hconfig]
    refine ⟨Or.inr ?_, ?_, ?_, ?_, ?_, ?_⟩
    · rw [h1 R E]
    · rw [h1 R E]
    · rw [h1 R E]; simp [Outcome.posts]
    · rw [h1 R E]; simp [Outcome.writes]
    · rw [h1 R E]; simp [Outcome.responseBody, String.join]
    · intro R2 E2
      rw [h1 R E, h1 R2 E2]
  | ok config =>
    have h1 : ∀ (R2 : Type) (E2 : Regexp R2), webhookHandler E2 w r =
        ⟨[.println ("Error unmarshaling push event: " ++ err)], .returned⟩ := by
      intro R2 E2
      simp [webhookHandler, hconfig, hbody, hkind, hparse]
    refine ⟨Or.inl ?_, ?_, ?_, ?_, ?_, ?_⟩
    · rw [h1 R E]
    · rw [h1 R E]
    · rw [h1 R E]; simp [Outcome.posts]
    · rw [h1 R E]; simp [Outcome.writes]
    · rw [h1 R E]; simp [Outcome.responseBody, String.join]
    · intro R2 E2
      rw [h1 R E, h1 R2 E2]

/-- The example of C10: a push-kind request with the body `not json`, under a
configuration whose second pattern does not compile, ends without a panic,
without a write and without an outbound call. -/
theorem webhookHandler_malformed_witness :
    getConfig (Example.world Example.badConfigFile Example.badConfig Example.pushEvent)
        = .ok Example.badConfig
      ∧ (∃ p ∈ Example.badConfig.Patterns, ∃ err, Fragment.regexp.Compile p = .error err)
      ∧ (webhookHandler Fragment.regexp
            (Example.world Example.badConfigFile Example.badConfig Example.pushEvent)
            ⟨"push", .ok Example.garbage⟩).exit = .returned
      ∧ (webhookHandler Fragment.regexp
            (Example.world Example.badConfigFile Example.badConfig Example.pushEvent)
            ⟨"push", .ok Example.garbage⟩).posts = []
      ∧ (webhookHandler Fragment.regexp
            (Example.world Example.badConfigFile Example.badConfig Example.pushEvent)
            ⟨"push", .ok Example.garbage⟩).writes = [] := by
  have hconfig : getConfig
      (Example.world Example.badConfigFile Example.badConfig Example.pushEvent)
      = .ok Example.badConfig := rfl
  have hparse : (Example.world Example.badConfigFile Example.badConfig
      Example.pushEvent).UnmarshalEvent Example.garbage
      = .error "invalid character 'o' in literal null (expecting 'u')" := by
    have hne : Example.garbage ≠ Example.payload Example.pushEvent := by decide
    simp [Example.world, Example.decodeOnly, hne]
  obtain ⟨_, hexit, hposts, hwrites, _⟩ := webhookHandler_malformed Fragment.regexp
    (Example.world Example.badConfigFile Example.badConfig Example.pushEvent)
    ⟨"push", .ok Example.garbage⟩ Example.garbage _ rfl rfl hparse
  exact ⟨hconfig, ⟨"*.pem", by simp [Example.badConfig], _, rfl⟩, hexit, hposts, hwrites⟩

end VendorUpdateMonitor
